import Mathlib

/-!
Verification development for the simple-email-polling service.

The service watches one IMAP mailbox, extracts numeric 2FA codes from new
messages, stores them in SQLite, and dispenses each code at most once over an
HTTP query surface.  This file embeds the relevant source functions
(`emailService.js` and the SQLite store module) as executable Lean
definitions and proves, or refutes on concrete inputs, the documented
properties of the extractor, the store, the retention cleanup, and the
reconnection state machine.
-/

namespace SimpleEmail

/-! ## Character classes used by the JS regular expressions

`\d` is the ASCII digits, `\s` the JS whitespace class (only the ASCII
members matter for the texts considered here), `\w` (for `\b` word
boundaries) is `[A-Za-z0-9_]`. -/

def isSpaceCh (c : Char) : Bool :=
  c = ' ' || c = '\t' || c = '\n' || c = '\r' || c = '\x0b' || c = '\x0c'

/-- The class `[:\s]` appearing between a label and the digits. -/
def isSepCh (c : Char) : Bool :=
  c = ':' || isSpaceCh c

/-- JS word character `[A-Za-z0-9_]` (ASCII), as used by `\b`. -/
def isWordCh (c : Char) : Bool :=
  ('a' ≤ c && c ≤ 'z') || ('A' ≤ c && c ≤ 'Z') || c.isDigit || c = '_'

/-! ## Matching one pattern at one position

`matchLabelAt lbl cs` is the semantics of the regex `lbl[:\s]*\d{4,8}` (case
insensitive, as compiled with the `i` flag) anchored at the start of `cs`:
the literal label, then a maximal run of separators, then at least 4 digits
of which the greedy `\d{4,8}` consumes at most 8.  Since the separator class
and `\d` are disjoint, the JS backtracking engine matches exactly this.  The
returned value is the full matched substring (`match[0]`, no capture
groups survive `String.match` with the `g` flag). -/

def matchLabelAt (label : List Char) (cs : List Char) : Option (List Char) :=
  if (cs.take label.length).map Char.toLower = label.map Char.toLower then
    let rest := cs.drop label.length
    let sep := rest.takeWhile isSepCh
    let digs := (rest.drop sep.length).takeWhile Char.isDigit
    if 4 ≤ digs.length then
      some (cs.take label.length ++ sep ++ digs.take 8)
    else none
  else none

/-- Semantics of `\b\d{n}\b` anchored at the start of `cs`, where `prev` is
the character preceding the anchor position (`none` at the start of the
text).  The run of digits must have length exactly `n` and be delimited by
non-word characters (or the ends of the text) on both sides. -/
def matchBareAt (n : Nat) (prev : Option Char) (cs : List Char) : Option (List Char) :=
  let boundaryBefore := match prev with
    | none => true
    | some p => !(isWordCh p)
  let digs := cs.takeWhile Char.isDigit
  let boundaryAfter := match cs.get? n with
    | none => true
    | some c => !(isWordCh c)
  if boundaryBefore && digs.length = n && boundaryAfter then some digs else none

/-- Leftmost match: scan the positions of the text left to right, threading
the previous character, and return the first position's match. -/
def firstMatchFrom (m : Option Char → List Char → Option (List Char)) :
    Option Char → List Char → Option (List Char)
  | _, [] => none
  | prev, c :: cs =>
    match m prev (c :: cs) with
    | some r => some r
    | none => firstMatchFrom m (some c) cs

/-- `text.match(/lbl[:\s]*(\d{4,8})/gi)` first element, or `none` when the
regex has no match in `text`. -/
def firstLabelMatch (label : List Char) (text : List Char) : Option (List Char) :=
  firstMatchFrom (fun _ cs => matchLabelAt label cs) none text

/-- `text.match(/\b(\d{n})\b/g)` first element, or `none`. -/
def firstBareMatch (n : Nat) (text : List Char) : Option (List Char) :=
  firstMatchFrom (matchBareAt n) none text

/-! ## The extractor's stage list and loop (`extractCode`, emailService.js) -/

/-- The five patterns of `extractCode`, each applied to the whole text and
reduced to its first match. -/
def jsPatternMatches (text : List Char) : List (Option (List Char)) :=
  [ firstLabelMatch ("code".toList) text,
    firstLabelMatch ("2fa".toList) text,
    firstLabelMatch ("verification".toList) text,
    firstBareMatch 6 text,
    firstBareMatch 4 text ]

/-- One iteration body of the `for (const pattern of patterns)` loop:
`matches[0].replace(/\D/g, '')` followed by the 4–8 length guard.  `none`
both when the pattern had no match and when the stripped match fails the
length guard (in which case the JS loop continues with the next pattern). -/
def stageValue (m : Option (List Char)) : Option (List Char) :=
  match m with
  | none => none
  | some s =>
    let code := s.filter Char.isDigit
    if 4 ≤ code.length ∧ code.length ≤ 8 then some code else none

/-- The loop of `extractCode`: first stage whose `stageValue` is `some`
wins; the function returns without inserting anything when every stage
fails. -/
def runStages : List (Option (List Char)) → Option (List Char)
  | [] => none
  | m :: ms =>
    match stageValue m with
    | some c => some c
    | none => runStages ms

/-- The pure pattern-matching core of `extractCode` on the combined text
`email.bodyText + ' ' + email.subject`. -/
def extractCodeText (text : List Char) : Option (List Char) :=
  runStages (jsPatternMatches text)

/-- `extractCode` as the spec sentence words it: the first stage with ANY
match wins, its first match is stripped of non-digits, and the result stands
provided its length is between 4 and 8 — a stage that matches but fails the
length guard yields no code at all rather than falling through. -/
def extractCodeClaimC3 (text : List Char) : Option (List Char) :=
  match (jsPatternMatches text).findSome? (fun m => m.map (·.filter Char.isDigit)) with
  | none => none
  | some code => if 4 ≤ code.length ∧ code.length ≤ 8 then some code else none

/-- The amended description of the loop: stages are tried in order and the
first stage whose first match, stripped of non-digits, has length 4–8 wins;
a stage failing the length guard is skipped in favor of later stages. -/
def extractCodeAmendedC3 (text : List Char) : Option (List Char) :=
  (jsPatternMatches text).findSome? stageValue

/-! ## The SQLite store (SimpleDatabase)

Rows mirror the two tables.  `created_at` columns hold the textual
timestamps SQLite stores (`CURRENT_TIMESTAMP` renders `YYYY-MM-DD
HH:MM:SS`); SQLite compares them with BINARY collation, i.e. the
lexicographic `String` order.  `codes.id` is the `AUTOINCREMENT` key,
modelled with a `nextCodeId` counter in the store state. -/

/-- Lexicographic (codepoint-wise) strict comparison of character lists:
SQLite's BINARY collation on the ASCII timestamp strings compared here. -/
def listLt : List Char → List Char → Bool
  | [], [] => false
  | [], _ :: _ => true
  | _ :: _, [] => false
  | a :: as, b :: bs =>
    if a.toNat < b.toNat then true
    else if b.toNat < a.toNat then false
    else listLt as bs

/-- `a < b` for two stored text values under BINARY collation. -/
def strLt (a b : String) : Bool := listLt a.toList b.toList

structure EmailRow where
  id : String
  email_account : String
  subject : String
  from_address : String
  to_address : String
  body_text : String
  date : String
  uid : Nat
  created_at : String
deriving DecidableEq, Repr

structure CodeRow where
  id : Nat
  email_id : String
  code : String
  used : Bool
  created_at : String
deriving DecidableEq, Repr

structure DB where
  emails : List EmailRow
  codes : List CodeRow
  nextCodeId : Nat
deriving DecidableEq, Repr

/-- Abstract persistence-engine failure (an `err` passed by sqlite to the
statement callback for anything other than an `OR IGNORE`d conflict). -/
inductive DbErr
  | engine
deriving DecidableEq, Repr

/-- `insertEmail`: `INSERT OR IGNORE INTO emails ...`, resolving
`this.changes > 0`.  `OR IGNORE` skips the row (zero changes, no error) on
a violation of either uniqueness constraint: the `id` primary key or
`UNIQUE(email_account, uid)`. -/
def insertEmail (e : EmailRow) (db : DB) : DB × Bool :=
  if db.emails.any (fun r => r.email_account = e.email_account && r.uid = e.uid)
      || db.emails.any (fun r => r.id = e.id) then
    (db, false)
  else
    ({ db with emails := db.emails ++ [e] }, true)

/-- `insertEmail` with the engine-error channel of the callback: a non-
conflict engine failure rejects the promise, anything else resolves. -/
def insertEmailRun (engineErr : Bool) (e : EmailRow) (db : DB) :
    Except DbErr (DB × Bool) :=
  if engineErr then Except.error DbErr.engine else Except.ok (insertEmail e db)

/-- `insertCode`: `INSERT INTO codes (email_id, code) VALUES (?, ?)`; `used`
defaults to false, `created_at` to the current timestamp `ts`, the id to the
next `AUTOINCREMENT` value; resolves `this.lastID`. -/
def insertCode (emailId code ts : String) (db : DB) : DB × Nat :=
  ({ db with
      codes := db.codes ++ [⟨db.nextCodeId, emailId, code, false, ts⟩],
      nextCodeId := db.nextCodeId + 1 },
    db.nextCodeId)

/-- The join `codes c JOIN emails e ON c.email_id = e.id` filtered by
`c.used = FALSE` and a predicate on the email row (the `WHERE` clauses of
the three retrieval queries).  `emails.id` is the primary key, so the join
partner is the unique row with that id. -/
def codeCandidatesBy (p : EmailRow → Bool) (db : DB) : List (CodeRow × EmailRow) :=
  db.codes.filterMap (fun c =>
    if c.used = false then
      match db.emails.find? (fun e => e.id = c.email_id) with
      | some e => if p e then some (c, e) else none
      | none => none
    else none)

/-- `ORDER BY c.created_at DESC LIMIT 1`: the candidate with the maximal
`created_at` (string comparison, BINARY collation). -/
def pickLatest : List (CodeRow × EmailRow) → Option (CodeRow × EmailRow)
  | [] => none
  | x :: xs =>
    match pickLatest xs with
    | none => some x
    | some y => if strLt x.1.created_at y.1.created_at then some y else some x

/-- `markCodeAsUsed`: `UPDATE codes SET used = TRUE WHERE id = ?`. -/
def markCodeAsUsed (i : Nat) (db : DB) : DB :=
  { db with
      codes := db.codes.map (fun c => if c.id = i then { c with used := true } else c) }

/-- The `SELECT` phase shared by the three retrieval operations. -/
def selectLastCodeBy (p : EmailRow → Bool) (db : DB) : Option (CodeRow × EmailRow) :=
  pickLatest (codeCandidatesBy p db)

/-- The retrieval operation as one sequential step: the `SELECT`, and when a
row was found, the `markCodeAsUsed` update; the resolved value is the row
snapshot produced by the `SELECT`. -/
def getLastCodeBy (p : EmailRow → Bool) (db : DB) :
    Option (CodeRow × EmailRow) × DB :=
  match selectLastCodeBy p db with
  | some (c, e) => (some (c, e), markCodeAsUsed c.id db)
  | none => (none, db)

/-- `getLastCode(emailAccount)`: `WHERE e.email_account = ? AND c.used = FALSE`. -/
def getLastCode (account : String) (db : DB) : Option (CodeRow × EmailRow) × DB :=
  getLastCodeBy (fun e => e.email_account = account) db

/-- `getLastCodeByFromAddress(emailAccount, fromAddress)`. -/
def getLastCodeByFromAddress (account fromAddress : String) (db : DB) :
    Option (CodeRow × EmailRow) × DB :=
  getLastCodeBy (fun e => e.email_account = account && e.from_address = fromAddress) db

/-- `getLastCodeByToAddress(toAddress)`: filtered by recipient only, no
account clause. -/
def getLastCodeByToAddress (toAddress : String) (db : DB) :
    Option (CodeRow × EmailRow) × DB :=
  getLastCodeBy (fun e => e.to_address = toAddress) db

/-- The `used` flag of the first `codes` row carrying id `i` (the row the
`WHERE id = ?` clause addresses; ids are unique in a well-formed store). -/
def codeUsed (db : DB) (i : Nat) : Option Bool :=
  (db.codes.find? (fun c => c.id = i)).map CodeRow.used

/-- `cleanupOldEmails`: first `DELETE FROM codes WHERE email_id IN (SELECT
id FROM emails WHERE created_at < ?)`, then `DELETE FROM emails WHERE
created_at < ?`, resolving `this.changes` of the second statement.  The
bound `?` is `new Date(Date.now() - days*86400000).toISOString()` — an ISO
string compared textually against the stored timestamps. -/
def cleanupOldEmails (cutoff : String) (db : DB) : DB × Nat :=
  let oldIds := (db.emails.filter (fun e => strLt e.created_at cutoff)).map EmailRow.id
  let codes2 := db.codes.filter (fun c => !(oldIds.contains c.email_id))
  let kept := db.emails.filter (fun e => !(strLt e.created_at cutoff))
  ({ db with emails := kept, codes := codes2 }, db.emails.length - kept.length)

/-! ## The store operations as a step alphabet

Used to state store-wide invariants (consumption monotonicity) over every
operation the module exposes. -/

inductive Op
  | insertEmail (e : EmailRow)
  | insertCode (emailId code ts : String)
  | getLastCode (account : String)
  | getLastCodeByFromAddress (account fromAddress : String)
  | getLastCodeByToAddress (toAddress : String)
  | markCodeAsUsed (i : Nat)
  | cleanupOldEmails (cutoff : String)
deriving DecidableEq, Repr

def applyOp : Op → DB → DB
  | Op.insertEmail e, db => (insertEmail e db).1
  | Op.insertCode emailId code ts, db => (insertCode emailId code ts db).1
  | Op.getLastCode account, db => (getLastCode account db).2
  | Op.getLastCodeByFromAddress account fromAddress, db =>
      (getLastCodeByFromAddress account fromAddress db).2
  | Op.getLastCodeByToAddress toAddress, db => (getLastCodeByToAddress toAddress db).2
  | Op.markCodeAsUsed i, db => markCodeAsUsed i db
  | Op.cleanupOldEmails cutoff, db => (cleanupOldEmails cutoff db).1

/-! ## The two-phase retrieval as it executes under concurrency

A retrieval is issued to sqlite as two separate statements: the `SELECT`
(whose callback resolves the promise) and, queued from inside that callback,
the `UPDATE` of `markCodeAsUsed`.  Nothing ties them together — another
caller's `SELECT` can run between them.  Each caller is a tiny process with
one program counter: not yet selected, selected (holding its row snapshot),
or done marking. -/

inductive CPhase
  | ready
  | selected (r : Option (CodeRow × EmailRow))
  | done (r : Option (CodeRow × EmailRow))
deriving DecidableEq, Repr

/-- One atomic database statement of one `getLastCode(account)` caller. -/
def stepCall (account : String) : CPhase × DB → CPhase × DB
  | (CPhase.ready, db) => (CPhase.selected (selectLastCodeBy (fun e => e.email_account = account) db), db)
  | (CPhase.selected (some (c, e)), db) => (CPhase.done (some (c, e)), markCodeAsUsed c.id db)
  | (CPhase.selected none, db) => (CPhase.done none, db)
  | (CPhase.done r, db) => (CPhase.done r, db)

/-- Run two concurrent `getLastCode` callers under a schedule: `true` steps
caller 1, `false` steps caller 2. -/
def runRace (account : String) : List Bool → CPhase × CPhase × DB → CPhase × CPhase × DB
  | [], s => s
  | b :: bs, (p1, p2, db) =>
    if b then
      let s1 := stepCall account (p1, db)
      runRace account bs (s1.1, p2, s1.2)
    else
      let s2 := stepCall account (p2, db)
      runRace account bs (p1, s2.1, s2.2)

/-! ## The watcher (SimpleEmailService): reconnection and guards -/

def maxReconnectAttempts : Nat := 10

/-- `this.reconnectDelay` in milliseconds. -/
def reconnectDelayMs : Nat := 5000

/-- The in-memory connection-session fields of `SimpleEmailService` that the
reconnection logic and the guards read and write. -/
structure SvcState where
  isConnected : Bool
  reconnectAttempts : Nat
  isReconnecting : Bool
  hasImap : Bool
  hasHeartbeat : Bool
deriving DecidableEq, Repr

/-- `scheduleReconnect()`: refuse once the attempt budget is spent;
otherwise set the reconnecting flag, increment the counter, and schedule
`reconnect` after `min(reconnectDelay * attempts, 60000)` ms (the returned
delay; `none` means no timer was set). -/
def scheduleReconnect (st : SvcState) : SvcState × Option Nat :=
  if maxReconnectAttempts ≤ st.reconnectAttempts then
    (st, none)
  else
    let st' := { st with
      isReconnecting := true,
      reconnectAttempts := st.reconnectAttempts + 1 }
    (st', some (min (reconnectDelayMs * st'.reconnectAttempts) 60000))

/-- `cleanup()`: drop the connected flag, clear the heartbeat timer,
release the imap handle. -/
def svcCleanup (st : SvcState) : SvcState :=
  { st with isConnected := false, hasHeartbeat := false, hasImap := false }

/-- The events that drive the session fields. -/
inductive SvcEv
  /-- the imap `ready` handler: successful `connected` transition. -/
  | ready
  /-- the imap `error` handler → `handleConnectionError`. -/
  | error
  /-- the imap `end` handler → `handleConnectionEnd`. -/
  | connEnd
  /-- the `catch` branch of `reconnect()`: a failed reconnection attempt. -/
  | reconnectFail
deriving DecidableEq, Repr

/-- Event action on the session state, together with the reconnect delay it
scheduled, if any. -/
def applyEv : SvcEv → SvcState → SvcState × Option Nat
  | SvcEv.ready, st =>
      ({ st with
          isConnected := true,
          reconnectAttempts := 0,
          isReconnecting := false,
          hasImap := true,
          hasHeartbeat := true }, none)
  | SvcEv.error, st =>
      let st' := svcCleanup st
      if st'.isReconnecting then (st', none) else scheduleReconnect st'
  | SvcEv.connEnd, st =>
      let st' := svcCleanup st
      if st'.isReconnecting then (st', none) else scheduleReconnect st'
  | SvcEv.reconnectFail, st =>
      scheduleReconnect { st with isReconnecting := false }

/-- The imap commands the guarded operations may issue. -/
inductive ImapCmd
  /-- `imap.search` for recent unseen mail (start of `fetchLatestEmail`). -/
  | search
  /-- the explicit `imap.noop` liveness probe of the heartbeat. -/
  | noop
deriving DecidableEq, Repr

/-- `fetchLatestEmail` up to its first imap command: the guard
`if (!this.isConnected || !this.imap) return;` makes it return without
touching anything; otherwise it issues the search. -/
def fetchLatestEmail (st : SvcState) : SvcState × Option ImapCmd :=
  if !st.isConnected || !st.hasImap then (st, none)
  else (st, some ImapCmd.search)

/-- One tick of the heartbeat interval: only when connected with a live
handle does it do anything, and when the server supports IDLE the tick is a
log-only no-op; otherwise it issues the `noop` probe. -/
def heartbeatTick (idleSupported : Bool) (st : SvcState) : SvcState × Option ImapCmd :=
  if st.isConnected && st.hasImap then
    if idleSupported then (st, none)
    else (st, some ImapCmd.noop)
  else (st, none)

/-! ## `extractCode` as the watcher runs it: pattern logic plus effects

The method receives the decoded email and its uid; on a hit it calls
`this.database.insertCode(email.id, code)` and `this.markEmailAsRead(uid)`.
`ts` is the `created_at` the store stamps on the new row.  The returned list
holds the uids for which a mark-as-read command was issued. -/
def extractCodeRun (em : EmailRow) (uid : Nat) (ts : String) (db : DB) :
    DB × List Nat :=
  let text := em.body_text.toList ++ [' '] ++ em.subject.toList
  match extractCodeText text with
  | some code => ((insertCode em.id (String.mk code) ts db).1, [uid])
  | none => (db, [])

/-! ## Timestamp chronology

`emails.created_at` holds `YYYY-MM-DD HH:MM:SS` (from `CURRENT_TIMESTAMP`)
while the cleanup cutoff is `YYYY-MM-DDTHH:MM:SS.sssZ` (from
`toISOString()`), both UTC.  Both place year, month, day, hour, minute,
second at the same character positions, so one fixed-position reader
recovers the instant either string denotes; for valid timestamps the
lexicographic order on the 6-tuples is chronological order. -/

def digitsVal (cs : List Char) : Nat :=
  cs.foldl (fun a c => a * 10 + (c.toNat - 48)) 0

def sliceVal (s : List Char) (start len : Nat) : Nat :=
  digitsVal ((s.drop start).take len)

/-- (year, month, day, hour, minute, second) of either timestamp format. -/
def tsFields (s : String) : Nat × Nat × Nat × Nat × Nat × Nat :=
  let cs := s.toList
  (sliceVal cs 0 4, sliceVal cs 5 2, sliceVal cs 8 2,
   sliceVal cs 11 2, sliceVal cs 14 2, sliceVal cs 17 2)

/-- Chronological strict order on timestamp fields. -/
def tsBefore (a b : Nat × Nat × Nat × Nat × Nat × Nat) : Bool :=
  match a, b with
  | (y1, m1, d1, h1, mi1, s1), (y2, m2, d2, h2, mi2, s2) =>
    if y1 ≠ y2 then y1 < y2
    else if m1 ≠ m2 then m1 < m2
    else if d1 ≠ d2 then d1 < d2
    else if h1 ≠ h2 then h1 < h2
    else if mi1 ≠ mi2 then mi1 < mi2
    else s1 < s2

/-! ## Concrete instances used by counterexamples and witnesses -/

def c3Text : List Char := "2fa:12345678 111111".toList

def em1 : EmailRow :=
  ⟨"m1", "acct@x.com", "hi", "a@b.com", "c@d.com", "your code: 1234",
    "2025-10-01T10:00:00.000Z", 5, "2025-10-01 10:00:00"⟩

def cd1 : CodeRow := ⟨1, "m1", "1234", false, "2025-10-01 10:00:05"⟩

def db1 : DB := ⟨[em1], [cd1], 2⟩

/-- Interleaving in which both callers run their `SELECT` before either
runs its `UPDATE`. -/
def racedSched : List Bool := [true, false, true, false]

/-- Interleaving in which caller 1 completes both statements first. -/
def serialSched : List Bool := [true, true, false, false]

def racedRun : CPhase × CPhase × DB :=
  runRace ("acct@x.com") racedSched (CPhase.ready, CPhase.ready, db1)

def serialRun : CPhase × CPhase × DB :=
  runRace ("acct@x.com") serialSched (CPhase.ready, CPhase.ready, db1)

def em7 : EmailRow :=
  ⟨"m7", "acct@x.com", "s", "f@x.com", "t@x.com", "b",
    "2025-10-05T13:00:00.000Z", 9, "2025-10-05 13:00:00"⟩

def cd7 : CodeRow := ⟨1, "m7", "5555", false, "2025-10-05 13:00:01"⟩

def db7 : DB := ⟨[em7], [cd7], 2⟩

/-- `toISOString()` rendering of a cutoff instant one hour BEFORE `em7`'s
creation time on the same UTC day. -/
def cutoff7 : String := "2025-10-05T12:00:00.000Z"

def em8 : EmailRow :=
  ⟨"m8", "acct@x.com", "", "f@x.com", "t@x.com", "code: 1234",
    "2025-10-01T10:00:00.000Z", 3, "2025-10-01 10:00:00"⟩

def db8 : DB := ⟨[em8], [], 1⟩

def ts8 : String := "2025-10-01 10:00:01"

def stDisc : SvcState := ⟨false, 3, true, false, false⟩

def st6 : SvcState := ⟨false, 2, false, false, false⟩

def cd5 : CodeRow := ⟨1, "m1", "9999", true, "2025-10-01 10:00:05"⟩

def db5 : DB := ⟨[em1], [cd5], 2⟩

def em4 : EmailRow :=
  ⟨"m4", "acct@x.com", "s2", "f@x.com", "t@x.com", "b2",
    "2025-10-02T10:00:00.000Z", 5, "2025-10-02 10:00:00"⟩

/-! ## Helper lemmas about the store -/

theorem runStages_eq_findSome (l : List (Option (List Char))) :
    runStages l = l.findSome? stageValue := by
  induction l with
  | nil => rfl
  | cons m ms ih =>
    cases h : stageValue m <;> simp [runStages, List.findSome?, h, ih]

theorem mem_codeCandidatesBy_iff {p : EmailRow → Bool} {db : DB}
    {x : CodeRow × EmailRow} :
    x ∈ codeCandidatesBy p db ↔
      x.1 ∈ db.codes ∧ x.1.used = false
        ∧ db.emails.find? (fun e => e.id = x.1.email_id) = some x.2
        ∧ p x.2 = true := by
  constructor
  · intro h
    rcases List.mem_filterMap.mp h with ⟨c0, hc0, hf⟩
    by_cases hu : c0.used = false
    · rw [if_pos hu] at hf
      cases hfind : db.emails.find? (fun e => e.id = c0.email_id) with
      | none => simp only [hfind] at hf; cases hf
      | some e0 =>
        simp only [hfind] at hf
        by_cases hp : p e0 = true
        · rw [if_pos hp] at hf
          cases hf
          exact ⟨hc0, hu, hfind, hp⟩
        · rw [if_neg hp] at hf; cases hf
    · rw [if_neg hu] at hf; cases hf
  · rintro ⟨hc, hu, hfind, hp⟩
    refine List.mem_filterMap.mpr ⟨x.1, hc, ?_⟩
    rw [if_pos hu]
    simp only [hfind]
    rw [if_pos hp]

theorem listLt_irrefl (a : List Char) : listLt a a = false := by
  induction a with
  | nil => rfl
  | cons c cs ih => simp [listLt, ih]

theorem listLt_asymm : ∀ a b : List Char, listLt a b = true → listLt b a = false := by
  intro a
  induction a with
  | nil =>
    intro b h
    cases b with
    | nil => simp [listLt] at h
    | cons y ys => rfl
  | cons x xs ih =>
    intro b h
    cases b with
    | nil => simp [listLt] at h
    | cons y ys =>
      simp only [listLt] at h ⊢
      by_cases h1 : x.toNat < y.toNat
      · have h2 : ¬ y.toNat < x.toNat := by omega
        rw [if_neg h2, if_pos h1]
      · by_cases h2 : y.toNat < x.toNat
        · rw [if_neg h1, if_pos h2] at h
          cases h
        · rw [if_neg h1, if_neg h2] at h
          rw [if_neg h2, if_neg h1]
          exact ih ys h

theorem listLt_negtrans : ∀ a b c : List Char,
    listLt a b = false → listLt b c = false → listLt a c = false := by
  intro a
  induction a with
  | nil =>
    intro b c h1 h2
    cases b with
    | nil => exact h2
    | cons y ys => simp [listLt] at h1
  | cons x xs ih =>
    intro b c h1 h2
    cases c with
    | nil => rfl
    | cons z zs =>
      cases b with
      | nil => simp [listLt] at h2
      | cons y ys =>
        simp only [listLt] at h1 h2 ⊢
        by_cases hxy : x.toNat < y.toNat
        · rw [if_pos hxy] at h1; cases h1
        · rw [if_neg hxy] at h1
          by_cases hyz : y.toNat < z.toNat
          · rw [if_pos hyz] at h2; cases h2
          · rw [if_neg hyz] at h2
            by_cases hxz : x.toNat < z.toNat
            · exfalso; omega
            · rw [if_neg hxz]
              by_cases hzx : z.toNat < x.toNat
              · rw [if_pos hzx]
              · rw [if_neg hzx]
                have hyx : ¬ y.toNat < x.toNat := by omega
                have hzy : ¬ z.toNat < y.toNat := by omega
                rw [if_neg hyx] at h1
                rw [if_neg hzy] at h2
                exact ih ys zs h1 h2

theorem strLt_irrefl (a : String) : strLt a a = false :=
  listLt_irrefl a.toList

theorem strLt_asymm {a b : String} (h : strLt a b = true) : strLt b a = false :=
  listLt_asymm a.toList b.toList h

theorem strLt_negtrans {a b c : String} (h1 : strLt a b = false)
    (h2 : strLt b c = false) : strLt a c = false :=
  listLt_negtrans a.toList b.toList c.toList h1 h2

theorem pickLatest_eq_none {l : List (CodeRow × EmailRow)}
    (h : pickLatest l = none) : l = [] := by
  cases l with
  | nil => rfl
  | cons a l =>
    unfold pickLatest at h
    cases hl : pickLatest l with
    | none => simp only [hl] at h; cases h
    | some y =>
      simp only [hl] at h
      by_cases hlt : strLt a.1.created_at y.1.created_at = true
      · rw [if_pos hlt] at h; cases h
      · rw [if_neg hlt] at h; cases h

theorem pickLatest_mem : ∀ {l : List (CodeRow × EmailRow)} {x},
    pickLatest l = some x → x ∈ l := by
  intro l
  induction l with
  | nil => intro x h; cases h
  | cons a l ih =>
    intro x h
    unfold pickLatest at h
    cases hl : pickLatest l with
    | none =>
      simp only [hl] at h; cases h
      exact List.mem_cons_self a l
    | some y =>
      simp only [hl] at h
      by_cases hlt : strLt a.1.created_at y.1.created_at = true
      · rw [if_pos hlt] at h; cases h
        exact List.mem_cons_of_mem a (ih hl)
      · rw [if_neg hlt] at h; cases h
        exact List.mem_cons_self a l

theorem pickLatest_max : ∀ {l : List (CodeRow × EmailRow)} {x},
    pickLatest l = some x →
    ∀ y ∈ l, strLt x.1.created_at y.1.created_at = false := by
  intro l
  induction l with
  | nil => intro x h; cases h
  | cons a l ih =>
    intro x h y hy
    unfold pickLatest at h
    cases hl : pickLatest l with
    | none =>
      simp only [hl] at h; cases h
      have : l = [] := pickLatest_eq_none hl
      subst this
      rcases List.mem_singleton.mp hy with rfl
      exact strLt_irrefl _
    | some z =>
      simp only [hl] at h
      by_cases hlt : strLt a.1.created_at z.1.created_at = true
      · rw [if_pos hlt] at h; cases h
        rcases List.mem_cons.mp hy with rfl | hy2
        · exact strLt_asymm hlt
        · exact ih hl y hy2
      · rw [if_neg hlt] at h; cases h
        have hlf : strLt a.1.created_at z.1.created_at = false := by
          simpa using hlt
        rcases List.mem_cons.mp hy with rfl | hy2
        · exact strLt_irrefl _
        · exact strLt_negtrans hlf (ih hl y hy2)

theorem getLastCodeBy_some {p : EmailRow → Bool} {db : DB} {c : CodeRow}
    {e : EmailRow} (h : (getLastCodeBy p db).1 = some (c, e)) :
    (c, e) ∈ codeCandidatesBy p db
    ∧ c.used = false
    ∧ (∀ y ∈ codeCandidatesBy p db, strLt c.created_at y.1.created_at = false)
    ∧ (getLastCodeBy p db).2 = markCodeAsUsed c.id db := by
  unfold getLastCodeBy at h ⊢
  cases hs : selectLastCodeBy p db with
  | none => rw [hs] at h; cases h
  | some x =>
    simp only [hs] at h ⊢
    obtain ⟨c0, e0⟩ := x
    cases h
    have hmem := pickLatest_mem hs
    have hmax := pickLatest_max hs
    exact ⟨hmem, (mem_codeCandidatesBy_iff.mp hmem).2.1, hmax, rfl⟩

theorem mark_find_used (i : Nat) : ∀ l : List CodeRow, (∃ c ∈ l, c.id = i) →
    ((l.map (fun c => if c.id = i then { c with used := true } else c)).find?
        (fun c => c.id = i)).map CodeRow.used = some true := by
  intro l
  induction l with
  | nil => rintro ⟨c, hc, _⟩; cases hc
  | cons a l ih =>
    rintro ⟨c, hc, hci⟩
    by_cases ha : a.id = i
    · simp [List.find?_cons, ha]
    · rcases List.mem_cons.mp hc with rfl | hc2
      · exact absurd hci ha
      · simpa [List.find?_cons, ha] using ih ⟨c, hc2, hci⟩

theorem codeUsed_markCodeAsUsed_self {db : DB} {i : Nat}
    (h : ∃ c ∈ db.codes, c.id = i) :
    codeUsed (markCodeAsUsed i db) i = some true := by
  unfold codeUsed markCodeAsUsed
  exact mark_find_used i db.codes h

theorem codeCandidatesBy_mark_nil {p : EmailRow → Bool} {db : DB}
    {c : CodeRow} {e : EmailRow}
    (h : codeCandidatesBy p db = [(c, e)]) :
    codeCandidatesBy p (markCodeAsUsed c.id db) = [] := by
  rw [List.eq_nil_iff_forall_not_mem]
  intro x hx
  have hchar := mem_codeCandidatesBy_iff.mp hx
  rcases hchar with ⟨hxc, hxu, hxfind, hxp⟩
  rcases List.mem_map.mp hxc with ⟨c0, hc0, hc0eq⟩
  by_cases hid : c0.id = c.id
  · rw [if_pos hid] at hc0eq
    rw [← hc0eq] at hxu
    cases hxu
  · rw [if_neg hid] at hc0eq
    subst hc0eq
    have hxpre : x ∈ codeCandidatesBy p db :=
      mem_codeCandidatesBy_iff.mpr ⟨hc0, hxu, hxfind, hxp⟩
    rw [h] at hxpre
    rcases List.mem_singleton.mp hxpre with rfl
    exact hid rfl

theorem nodup_id_inj {l : List CodeRow} (h : (l.map CodeRow.id).Nodup)
    {a b : CodeRow} (ha : a ∈ l) (hb : b ∈ l) (hid : a.id = b.id) : a = b :=
  List.inj_on_of_nodup_map h ha hb hid

theorem insertEmail_codes (e : EmailRow) (db : DB) :
    ((insertEmail e db).1).codes = db.codes := by
  unfold insertEmail
  split <;> rfl

theorem mem_markCodeAsUsed {i : Nat} {db : DB} {c2 : CodeRow}
    (h : c2 ∈ (markCodeAsUsed i db).codes) :
    ∃ c0 ∈ db.codes, c2 = (if c0.id = i then { c0 with used := true } else c0) := by
  unfold markCodeAsUsed at h
  rcases List.mem_map.mp h with ⟨c0, hc0, heq⟩
  exact ⟨c0, hc0, heq.symm⟩

theorem mark_mono {i : Nat} {db : DB}
    (hnd : (db.codes.map CodeRow.id).Nodup)
    {c : CodeRow} (hc : c ∈ db.codes) (hu : c.used = true)
    {c2 : CodeRow} (h2 : c2 ∈ (markCodeAsUsed i db).codes) (hid : c2.id = c.id) :
    c2.used = true := by
  rcases mem_markCodeAsUsed h2 with ⟨c0, hc0, rfl⟩
  by_cases h0 : c0.id = i
  · rw [if_pos h0]
  · rw [if_neg h0] at hid ⊢
    rw [nodup_id_inj hnd hc0 hc hid]
    exact hu

theorem getLastCodeBy_post (p : EmailRow → Bool) (db : DB) :
    (getLastCodeBy p db).2 = db ∨ ∃ i, (getLastCodeBy p db).2 = markCodeAsUsed i db := by
  unfold getLastCodeBy
  cases hs : selectLastCodeBy p db with
  | none => simp only [hs]; exact Or.inl trivial
  | some x =>
    obtain ⟨c, e⟩ := x
    simp only [hs]
    right
    exact ⟨c.id, rfl⟩

theorem scheduleReconnect_attempts_zero {st : SvcState}
    (h : (scheduleReconnect st).1.reconnectAttempts = 0) :
    st.reconnectAttempts = 0 := by
  unfold scheduleReconnect at h
  by_cases hc : maxReconnectAttempts ≤ st.reconnectAttempts
  · rw [if_pos hc] at h
    exact h
  · rw [if_neg hc] at h
    simp at h

/-! ## C3 — extractor stage ordering -/

/-- C3 (counterexample): on the text `2fa:12345678 111111` the first stage
with any match is the `2fa` stage, whose first match `2fa:12345678` strips
to the 9-digit `212345678` — so under the claim's rule the result is no
code; the implementation instead falls through to the bare-6-digit stage
and returns `111111`. -/
theorem extractCode_claim_counterexample :
    extractCodeText c3Text = some ("111111".toList)
    ∧ extractCodeClaimC3 c3Text = none := by
  constructor <;> decide

/-- C3 (amended): the extractor tries the five pattern stages in the fixed
order; the first stage whose first match, stripped of non-digits, has
length between 4 and 8 wins and that stripped value is the code; a stage
that matches but fails the length guard is skipped in favor of later
stages; if no stage yields such a value the result is none.  In particular
`code: 4321 999999` yields `4321`, not `999999`. -/
theorem extractCode_stage_order (text : List Char) :
    extractCodeText text = extractCodeAmendedC3 text
    ∧ extractCodeText ("code: 4321 999999".toList) = some ("4321".toList) := by
  exact ⟨runStages_eq_findSome (jsPatternMatches text), by decide⟩

/-! ## C7 — retention cleanup -/

/-- C7: the cleanup cutoff is an ISO string (`...T...Z`) while stored
`created_at` values use the `YYYY-MM-DD HH:MM:SS` form, and SQLite compares
the two textually; because a space sorts below `T`, the email `em7`—created
a full hour AFTER the cutoff instant, hence younger than the cutoff—still
satisfies `created_at < cutoff` and is deleted together with its code,
contradicting the claim that a message even one second younger than the
cutoff is retained. -/
theorem cleanup_deletes_message_younger_than_cutoff :
    tsBefore (tsFields cutoff7) (tsFields em7.created_at) = true
    ∧ (cleanupOldEmails cutoff7 db7).1.emails = []
    ∧ (cleanupOldEmails cutoff7 db7).1.codes = []
    ∧ (cleanupOldEmails cutoff7 db7).2 = 1 := by
  refine ⟨by decide, ?_, ?_, ?_⟩ <;> decide

/-! ## C2 — concurrent retrieval single-use -/

/-- C2: retrieval is issued as two separate sqlite statements (the `SELECT`
and, queued from its callback, the `UPDATE` of `markCodeAsUsed`), not one
atomic select-and-flip.  Under the interleaving in which both callers run
their `SELECT` before either `UPDATE` (schedule `racedSched`), both
callers of `getLastCode` receive the single unconsumed code `cd1`, violating
the exactly-one guarantee; only the fully serial schedule gives one caller
the code and the other the not-found result. -/
theorem concurrent_retrieval_double_dispense :
    racedRun.1 = CPhase.done (some (cd1, em1))
    ∧ racedRun.2.1 = CPhase.done (some (cd1, em1))
    ∧ serialRun.1 = CPhase.done (some (cd1, em1))
    ∧ serialRun.2.1 = CPhase.done none := by
  refine ⟨?_, ?_, ?_, ?_⟩ <;> decide

/-! ## C8 — extractor side effects -/

/-- C8 (counterexample): `extractCode` is not effect-free: run on the email
`em8` (body `code: 1234`) it itself inserts the Code row into the store and
itself issues the mark-as-read command for the message's uid, rather than
leaving those side effects to its caller. -/
theorem extractCode_run_performs_side_effects :
    (extractCodeRun em8 3 ts8 db8).1 ≠ db8
    ∧ (extractCodeRun em8 3 ts8 db8).2 = [3]
    ∧ (extractCodeRun em8 3 ts8 db8).1.codes
        = [⟨1, "m8", "1234", false, ts8⟩] := by
  refine ⟨?_, ?_, ?_⟩ <;> decide

/-- C8 (amended): the pattern-matching logic of the extractor is a pure
function of the combined body-and-subject text, but the `extractCode`
routine itself persists the extracted Code and issues the mark-as-read
command on a hit; when no stage matches it creates no Code row, issues no
command, and leaves the store untouched. -/
theorem extractCode_run_effects (em : EmailRow) (uid : Nat) (ts : String) (db : DB) :
    (extractCodeText (em.body_text.toList ++ [' '] ++ em.subject.toList) = none →
      extractCodeRun em uid ts db = (db, []))
    ∧ (∀ code,
        extractCodeText (em.body_text.toList ++ [' '] ++ em.subject.toList) = some code →
        extractCodeRun em uid ts db =
          ({ db with
              codes := db.codes ++ [⟨db.nextCodeId, em.id, String.mk code, false, ts⟩],
              nextCodeId := db.nextCodeId + 1 }, [uid])) := by
  constructor
  · intro h
    simp only [extractCodeRun, h]
  · intro code h
    simp only [extractCodeRun, h, insertCode]

/-- Witness for the amended C8 theorem at the concrete email `em8`. -/
theorem extractCode_run_effects_witness :
    extractCodeText (em8.body_text.toList ++ [' '] ++ em8.subject.toList)
      = some ("1234".toList)
    ∧ (extractCodeRun em8 3 ts8 db8).2 = [3] :=
  ⟨by decide, by
    have h := (extractCode_run_effects em8 3 ts8 db8).2 ("1234".toList) (by decide)
    rw [h]⟩

/-! ## C9 — guards on ingestion and liveness while disconnected -/

/-- C9: a new-mail fetch or a heartbeat tick arriving while the watcher is
not in the connected/listening state (connection flag down or imap handle
released) is a pure no-op: the session state is unchanged, no imap command
is issued, and no error is raised. -/
theorem disconnected_operations_are_noops (st : SvcState) (idle : Bool)
    (h : st.isConnected = false ∨ st.hasImap = false) :
    fetchLatestEmail st = (st, none) ∧ heartbeatTick idle st = (st, none) := by
  rcases h with h | h <;> simp [fetchLatestEmail, heartbeatTick, h]

/-- Witness for the C9 guard theorem at a concrete disconnected state. -/
theorem disconnected_operations_are_noops_witness :
    (stDisc.isConnected = false ∨ stDisc.hasImap = false)
    ∧ fetchLatestEmail stDisc = (stDisc, none) :=
  ⟨Or.inl rfl, (disconnected_operations_are_noops stDisc true (Or.inl rfl)).1⟩

/-! ## C1 — getLastCode dispenses the latest unconsumed code once -/

/-- C1: when `getLastCode` returns a row, that row is an unconsumed code
joined to a message of the account, no such candidate has a strictly later
creation time, and the same retrieval leaves the code marked consumed in the
store; consequently, when exactly one candidate exists, the first call
returns it and a second call with no new codes added in between returns the
explicit empty result. -/
theorem getLastCode_dispenses_latest_once (account : String) (db : DB) :
    (∀ c e, (getLastCode account db).1 = some (c, e) →
      (c, e) ∈ codeCandidatesBy (fun e2 => e2.email_account = account) db
      ∧ c.used = false
      ∧ (∀ y ∈ codeCandidatesBy (fun e2 => e2.email_account = account) db,
          strLt c.created_at y.1.created_at = false)
      ∧ codeUsed (getLastCode account db).2 c.id = some true)
    ∧ (∀ c e, codeCandidatesBy (fun e2 => e2.email_account = account) db = [(c, e)] →
      (getLastCode account db).1 = some (c, e)
      ∧ (getLastCode account ((getLastCode account db).2)).1 = none) := by
  constructor
  · intro c e h
    have hs := getLastCodeBy_some h
    refine ⟨hs.1, hs.2.1, hs.2.2.1, ?_⟩
    unfold getLastCode
    rw [hs.2.2.2]
    exact codeUsed_markCodeAsUsed_self ⟨c, (mem_codeCandidatesBy_iff.mp hs.1).1, rfl⟩
  · intro c e h
    have hsel : selectLastCodeBy (fun e2 => e2.email_account = account) db
        = some (c, e) := by
      unfold selectLastCodeBy
      rw [h]
      rfl
    have hfst : (getLastCode account db).1 = some (c, e) := by
      unfold getLastCode getLastCodeBy
      simp only [hsel]
    have hpost : (getLastCode account db).2 = markCodeAsUsed c.id db := by
      unfold getLastCode getLastCodeBy
      simp only [hsel]
    refine ⟨hfst, ?_⟩
    rw [hpost]
    have hnil := codeCandidatesBy_mark_nil h
    unfold getLastCode getLastCodeBy selectLastCodeBy
    rw [hnil]
    rfl

/-- Witness for C1 at the one-candidate store `db1`. -/
theorem getLastCode_dispenses_latest_once_witness :
    codeCandidatesBy (fun e2 => e2.email_account = ("acct@x.com" : String)) db1
      = [(cd1, em1)]
    ∧ (getLastCode ("acct@x.com") db1).1 = some (cd1, em1)
    ∧ (getLastCode ("acct@x.com") ((getLastCode ("acct@x.com") db1).2)).1 = none := by
  have h : codeCandidatesBy (fun e2 => e2.email_account = ("acct@x.com" : String)) db1
      = [(cd1, em1)] := by decide
  have h2 := (getLastCode_dispenses_latest_once ("acct@x.com") db1).2 cd1 em1 h
  exact ⟨h, h2.1, h2.2⟩

/-! ## C4 — idempotent ingestion and error propagation -/

/-- C4: inserting a message whose (account, uid) pair already exists leaves
the table unchanged and resolves `false` instead of raising; a genuinely new
message is appended and resolves `true`; a persistence-engine failure is
propagated to the caller as the rejection. -/
theorem insertEmail_duplicate_and_error_behavior (e : EmailRow) (db : DB) :
    (db.emails.any (fun r => r.email_account = e.email_account && r.uid = e.uid) = true →
      insertEmailRun false e db = Except.ok (db, false))
    ∧ ((db.emails.any (fun r => r.email_account = e.email_account && r.uid = e.uid) = false
          ∧ db.emails.any (fun r => r.id = e.id) = false) →
      insertEmailRun false e db
        = Except.ok ({ db with emails := db.emails ++ [e] }, true))
    ∧ insertEmailRun true e db = Except.error DbErr.engine := by
  refine ⟨?_, ?_, rfl⟩
  · intro h
    simp [insertEmailRun, insertEmail, h]
  · rintro ⟨h1, h2⟩
    simp [insertEmailRun, insertEmail, h1, h2]

/-- Witness for C4: re-inserting `em1` into `db1` (same account and uid)
reports "not inserted" without touching the table. -/
theorem insertEmail_duplicate_and_error_behavior_witness :
    db1.emails.any
        (fun r => r.email_account = em1.email_account && r.uid = em1.uid) = true
    ∧ insertEmailRun false em1 db1 = Except.ok (db1, false) :=
  ⟨by decide, (insertEmail_duplicate_and_error_behavior em1 db1).1 (by decide)⟩

/-! ## C5 — consumption is monotonic and permanent -/

/-- C5: over every store operation, a code whose consumed flag is set keeps
it set (rows are only ever flipped to `used = true`, appended unconsumed
under a fresh id, or deleted); and none of the three retrieval operations
ever returns a row whose consumed flag is set. -/
theorem code_consumption_monotonic (op : Op) (db : DB)
    (hnd : (db.codes.map CodeRow.id).Nodup)
    (hlt : ∀ c ∈ db.codes, c.id < db.nextCodeId) :
    (∀ c ∈ db.codes, c.used = true →
      ∀ c2 ∈ (applyOp op db).codes, c2.id = c.id → c2.used = true)
    ∧ (∀ account c e, (getLastCode account db).1 = some (c, e) → c.used = false)
    ∧ (∀ account fa c e,
        (getLastCodeByFromAddress account fa db).1 = some (c, e) → c.used = false)
    ∧ (∀ ta c e, (getLastCodeByToAddress ta db).1 = some (c, e) → c.used = false) := by
  refine ⟨?_, ?_, ?_, ?_⟩
  · intro c hc hu c2 h2 hid
    cases op with
    | insertEmail e =>
      rw [show applyOp (Op.insertEmail e) db = (insertEmail e db).1 from rfl,
        insertEmail_codes] at h2
      rw [nodup_id_inj hnd h2 hc hid]
      exact hu
    | insertCode emailId code ts =>
      rcases List.mem_append.mp h2 with h2a | h2b
      · rw [nodup_id_inj hnd h2a hc hid]
        exact hu
      · rcases List.mem_singleton.mp h2b with rfl
        exfalso
        have h3 := hlt c hc
        rw [← hid] at h3
        exact Nat.lt_irrefl _ h3
    | getLastCode account =>
      rcases getLastCodeBy_post (fun e2 => e2.email_account = account) db with
        hpost | ⟨i, hpost⟩
      · rw [show applyOp (Op.getLastCode account) db
            = (getLastCodeBy (fun e2 => e2.email_account = account) db).2 from rfl,
          hpost] at h2
        rw [nodup_id_inj hnd h2 hc hid]
        exact hu
      · rw [show applyOp (Op.getLastCode account) db
            = (getLastCodeBy (fun e2 => e2.email_account = account) db).2 from rfl,
          hpost] at h2
        exact mark_mono hnd hc hu h2 hid
    | getLastCodeByFromAddress account fa =>
      rcases getLastCodeBy_post
          (fun e2 => e2.email_account = account && e2.from_address = fa) db with
        hpost | ⟨i, hpost⟩
      · rw [show applyOp (Op.getLastCodeByFromAddress account fa) db
            = (getLastCodeBy
                (fun e2 => e2.email_account = account && e2.from_address = fa) db).2
            from rfl, hpost] at h2
        rw [nodup_id_inj hnd h2 hc hid]
        exact hu
      · rw [show applyOp (Op.getLastCodeByFromAddress account fa) db
            = (getLastCodeBy
                (fun e2 => e2.email_account = account && e2.from_address = fa) db).2
            from rfl, hpost] at h2
        exact mark_mono hnd hc hu h2 hid
    | getLastCodeByToAddress ta =>
      rcases getLastCodeBy_post (fun e2 => e2.to_address = ta) db with
        hpost | ⟨i, hpost⟩
      · rw [show applyOp (Op.getLastCodeByToAddress ta) db
            = (getLastCodeBy (fun e2 => e2.to_address = ta) db).2 from rfl,
          hpost] at h2
        rw [nodup_id_inj hnd h2 hc hid]
        exact hu
      · rw [show applyOp (Op.getLastCodeByToAddress ta) db
            = (getLastCodeBy (fun e2 => e2.to_address = ta) db).2 from rfl,
          hpost] at h2
        exact mark_mono hnd hc hu h2 hid
    | markCodeAsUsed i =>
      exact mark_mono hnd hc hu h2 hid
    | cleanupOldEmails cutoff =>
      have h2m : c2 ∈ db.codes := (List.mem_filter.mp h2).1
      rw [nodup_id_inj hnd h2m hc hid]
      exact hu
  · intro account c e h
    exact (getLastCodeBy_some h).2.1
  · intro account fa c e h
    exact (getLastCodeBy_some h).2.1
  · intro ta c e h
    exact (getLastCodeBy_some h).2.1

/-- Witness for C5: marking `cd5` again in the store `db5`, where it is
already consumed, leaves every row with its id consumed. -/
theorem code_consumption_monotonic_witness :
    ((db5.codes.map CodeRow.id).Nodup ∧ ∀ c ∈ db5.codes, c.id < db5.nextCodeId)
    ∧ (∀ c2 ∈ (applyOp (Op.markCodeAsUsed 1) db5).codes,
        c2.id = cd5.id → c2.used = true) := by
  refine ⟨⟨by decide, by decide⟩, ?_⟩
  intro c2 h2 hid
  exact (code_consumption_monotonic (Op.markCodeAsUsed 1) db5 (by decide)
    (by decide)).1 cd5 (by decide) rfl c2 h2 hid

/-! ## C6 — reconnection backoff -/

/-- C6: a retry scheduled while the budget is open increments the attempt
counter first and uses delay `min(5000 * N, 60000)` ms for the resulting
attempt number N; the counter returns to zero only through the successful
`ready` transition; and once the counter has reached the maximum of 10, no
event schedules any further reconnect. -/
theorem reconnect_backoff_policy (st : SvcState) (n : Nat) :
    (st.reconnectAttempts + 1 = n → n ≤ maxReconnectAttempts →
      scheduleReconnect st =
        ({ st with isReconnecting := true, reconnectAttempts := n },
          some (min (reconnectDelayMs * n) 60000)))
    ∧ (∀ ev, (applyEv ev st).1.reconnectAttempts = 0 →
        st.reconnectAttempts = 0 ∨ ev = SvcEv.ready)
    ∧ (maxReconnectAttempts ≤ st.reconnectAttempts →
        scheduleReconnect st = (st, none)
        ∧ ∀ ev, ev ≠ SvcEv.ready → (applyEv ev st).2 = none) := by
  refine ⟨?_, ?_, ?_⟩
  · intro hn hmax
    have hcond : ¬ (maxReconnectAttempts ≤ st.reconnectAttempts) := by
      unfold maxReconnectAttempts at hmax ⊢
      omega
    unfold scheduleReconnect
    rw [if_neg hcond, hn]
  · intro ev hev
    cases ev with
    | ready => exact Or.inr rfl
    | error =>
      left
      simp only [applyEv] at hev
      by_cases hr : (svcCleanup st).isReconnecting = true
      · rw [if_pos hr] at hev
        exact hev
      · rw [if_neg hr] at hev
        have h0 := scheduleReconnect_attempts_zero hev
        exact h0
    | connEnd =>
      left
      simp only [applyEv] at hev
      by_cases hr : (svcCleanup st).isReconnecting = true
      · rw [if_pos hr] at hev
        exact hev
      · rw [if_neg hr] at hev
        have h0 := scheduleReconnect_attempts_zero hev
        exact h0
    | reconnectFail =>
      left
      simp only [applyEv] at hev
      have h0 := scheduleReconnect_attempts_zero hev
      exact h0
  · intro h
    have hsr : scheduleReconnect st = (st, none) := by
      unfold scheduleReconnect
      rw [if_pos h]
    refine ⟨hsr, ?_⟩
    intro ev hne
    cases ev with
    | ready => exact absurd rfl hne
    | error =>
      simp only [applyEv]
      by_cases hr : (svcCleanup st).isReconnecting = true
      · rw [if_pos hr]
      · rw [if_neg hr]
        have hs2 : scheduleReconnect (svcCleanup st) = (svcCleanup st, none) := by
          unfold scheduleReconnect
          rw [if_pos (show maxReconnectAttempts ≤ (svcCleanup st).reconnectAttempts
            from h)]
        rw [hs2]
    | connEnd =>
      simp only [applyEv]
      by_cases hr : (svcCleanup st).isReconnecting = true
      · rw [if_pos hr]
      · rw [if_neg hr]
        have hs2 : scheduleReconnect (svcCleanup st) = (svcCleanup st, none) := by
          unfold scheduleReconnect
          rw [if_pos (show maxReconnectAttempts ≤ (svcCleanup st).reconnectAttempts
            from h)]
        rw [hs2]
    | reconnectFail =>
      simp only [applyEv]
      have hs2 : scheduleReconnect { st with isReconnecting := false }
          = ({ st with isReconnecting := false }, none) := by
        unfold scheduleReconnect
        rw [if_pos (show maxReconnectAttempts
          ≤ ({ st with isReconnecting := false } : SvcState).reconnectAttempts from h)]
      rw [hs2]

/-- Witness for C6 at a concrete session state with two spent attempts:
the third retry is scheduled after `min(5000 * 3, 60000) = 15000` ms. -/
theorem reconnect_backoff_policy_witness :
    (st6.reconnectAttempts + 1 = 3 ∧ 3 ≤ maxReconnectAttempts)
    ∧ scheduleReconnect st6 =
        ({ st6 with isReconnecting := true, reconnectAttempts := 3 }, some 15000) := by
  have h := (reconnect_backoff_policy st6 3).1 rfl (by decide)
  exact ⟨⟨rfl, by decide⟩, h.trans (by decide)⟩

/-! ## C10 — retrieval hands back the pre-flip snapshot -/

/-- C10: every successful retrieval (account, by-sender, by-recipient)
returns the row snapshot taken by the `SELECT` before the consume flip — its
consumed flag is still false in the payload — while the same retrieval
leaves the row marked consumed in the store. -/
theorem retrieval_returns_preconsumption_snapshot (db : DB) (account fa ta : String) :
    (∀ c e, (getLastCode account db).1 = some (c, e) →
      c.used = false ∧ codeUsed (getLastCode account db).2 c.id = some true)
    ∧ (∀ c e, (getLastCodeByFromAddress account fa db).1 = some (c, e) →
      c.used = false
      ∧ codeUsed (getLastCodeByFromAddress account fa db).2 c.id = some true)
    ∧ (∀ c e, (getLastCodeByToAddress ta db).1 = some (c, e) →
      c.used = false ∧ codeUsed (getLastCodeByToAddress ta db).2 c.id = some true) := by
  refine ⟨?_, ?_, ?_⟩ <;>
    · intro c e h
      have hs := getLastCodeBy_some h
      refine ⟨hs.2.1, ?_⟩
      simp only [getLastCode, getLastCodeByFromAddress, getLastCodeByToAddress]
      rw [hs.2.2.2]
      exact codeUsed_markCodeAsUsed_self ⟨c, (mem_codeCandidatesBy_iff.mp hs.1).1, rfl⟩

/-- Witness for C10: the payload handed back from `db1` still shows
`used = false` while the store's row is flipped. -/
theorem retrieval_returns_preconsumption_snapshot_witness :
    (getLastCode ("acct@x.com") db1).1 = some (cd1, em1)
    ∧ cd1.used = false
    ∧ codeUsed (getLastCode ("acct@x.com") db1).2 cd1.id = some true := by
  have h : (getLastCode ("acct@x.com") db1).1 = some (cd1, em1) := by decide
  have h2 := (retrieval_returns_preconsumption_snapshot db1 ("acct@x.com")
    ("a@b.com") ("c@d.com")).1 cd1 em1 h
  exact ⟨h, h2.1, h2.2⟩

end SimpleEmail
